import Mathlib

set_option maxRecDepth 16000

/- Verification of the accessibility source-rewriting engine of the
   repository's two scripts, make_accessible.py (namespace MA, the .shn
   dialect) and make_accessible_tex.py (namespace MAT, the plain .tex
   dialect).  Source text is modelled as a list of characters; each regex
   of the source is translated into the deterministic matching procedure
   it denotes on strings (the patterns used contain no nondeterminism:
   optional bracket groups backtrack only to an immediately failing empty
   alternative, and negated character classes scan to the first stopper).
   Python replacement-template compilation, which rejects the escapes
   \u and \I appearing in the templates of make_accessible_tex.py, is
   modelled by badTemplateEscape. -/

namespace Access

/-- Source text, modelled as its list of characters. -/
abbrev Str := List Char

/-- Substring test, Python's infix membership test on strings. -/
def containsSub (pat : Str) : Str → Bool
  | [] => pat.isEmpty
  | c :: cs => pat.isPrefixOf (c :: cs) || containsSub pat cs

/-- Suffix of s starting at the LAST occurrence of pat (Python str.rfind
followed by taking the slice from that index to the end), none if pat does
not occur. -/
def lastOccSuffix (pat : Str) : Str → Option Str
  | [] => if pat.isEmpty then some [] else none
  | c :: cs =>
    match lastOccSuffix pat cs with
    | some suf => some suf
    | none => if pat.isPrefixOf (c :: cs) then some (c :: cs) else none

/-- Net brace depth of a character run: +1 per opening brace, -1 per
closing brace (the loop of is_already_wrapped). -/
def braceDepth : Str → Int
  | [] => 0
  | c :: cs =>
    (if c = '\x7b' then 1 else if c = '\x7d' then -1 else 0) + braceDepth cs

/-- Split at the first occurrence of character c: returns the part before
c and the part after c.  This is how a negated character class followed by
the stopper character matches. -/
def splitAtChar (c : Char) : Str → Option (Str × Str)
  | [] => none
  | x :: xs =>
    if x = c then some ([], xs)
    else
      match splitAtChar c xs with
      | some (a, b) => some (x :: a, b)
      | none => none

/-- Match a brace-delimited argument with at least one character inside
and no closing brace inside, returning (inside, rest). -/
def braceArg : Str → Option (Str × Str)
  | '\x7b' :: rest =>
    match splitAtChar '\x7d' rest with
    | some (inner, after) => if inner.isEmpty then none else some (inner, after)
    | none => none
  | _ => none

/-- Match an optional bracket-options group (scan to the first closing
bracket) followed by a brace argument; returns (optionsText, argument,
rest).  When the head is an opening bracket and the bracketed path fails,
the empty-options alternative would have to match a brace at that bracket,
which fails, so the whole match fails -- exactly Python's backtracking on
these patterns. -/
def optsAndArg : Str → Option (Str × Str × Str)
  | '[' :: rest =>
    (match splitAtChar ']' rest with
     | some (inner, after) =>
        match braceArg after with
        | some (arg, rest2) => some ('[' :: (inner ++ [']']), arg, rest2)
        | none => none
     | none => none)
  | s =>
    match braceArg s with
    | some (arg, rest2) => some ([], arg, rest2)
    | none => none

/-- The literal token opening a tooltip wrapper. -/
def tooltipOpen : Str := "\\pdftooltip\x7b".toList

/-- The literal image-inclusion command name. -/
def inclTok : Str := "\\includegraphics".toList

/-- Match INCL_RE at the head of s: the image-inclusion command, an
optional bracket-options group, and a brace-delimited filename.  Returns
(matchedText, optionsText, filename, rest). -/
def matchIncl (s : Str) : Option (Str × Str × Str × Str) :=
  if inclTok.isPrefixOf s then
    match optsAndArg (s.drop inclTok.length) with
    | some (opts, fname, rest) =>
      some (inclTok ++ opts ++ '\x7b' :: (fname ++ ['\x7d']), opts, fname, rest)
    | none => none
  else none

/-- Extension of a path component: index of the last dot, as used by
pathlib's stem computation. -/
def lastIdxOf (c : Char) : Str → Option Nat
  | [] => none
  | x :: xs =>
    match lastIdxOf c xs with
    | some i => some (i + 1)
    | none => if x = c then some 0 else none

/-- Split on a separator character, keeping empty components. -/
def splitOnChar (c : Char) : Str → List Str
  | [] => [[]]
  | x :: xs =>
    let r := splitOnChar c xs
    if x = c then [] :: r
    else
      match r with
      | [] => [[x]]
      | h :: t => (x :: h) :: t

/-- Final path component as pathlib's name property computes it on POSIX:
split on the separator, drop empty and single-dot components, and take
the last component (empty if none remain). -/
def pathName (s : Str) : Str :=
  let comps := (splitOnChar '/' s).filter (fun comp => !comp.isEmpty && !(comp == ['.']))
  match comps.getLast? with
  | some l => l
  | none => []

/-- The pathlib stem of a path: the name without its last extension,
where an extension requires the last dot to be neither first nor last in
the name. -/
def pathStem (s : Str) : Str :=
  let n := pathName s
  match lastIdxOf '.' n with
  | none => n
  | some i => if 0 < i ∧ i < n.length - 1 then n.take i else n

/-- ASCII lowercasing of one character, modelling str.lower on the ASCII
inputs this tool processes. -/
def lowerCh (c : Char) : Char :=
  if 'A' ≤ c ∧ c ≤ 'Z' then Char.ofNat (c.toNat + 32) else c

/-- Python str.strip whitespace set (ASCII part). -/
def isPySpace (c : Char) : Bool :=
  c == ' ' || c == '\t' || c == '\n' || c == '\r' || c == '\x0b' || c == '\x0c'

/-- Python str.strip: drop whitespace from both ends. -/
def pyStrip (s : Str) : Str :=
  ((s.dropWhile isPySpace).reverse.dropWhile isPySpace).reverse

/-- Emit a completed digit run: runs of four or more digits are removed. -/
def emitRun (r : Str) : Str := if 4 ≤ r.length then [] else r

/-- Worker for stripDigitRuns, accumulating the current digit run. -/
def stripDR (run : Str) : Str → Str
  | [] => emitRun run
  | c :: cs =>
    if c.isDigit then stripDR (run ++ [c]) cs
    else emitRun run ++ c :: stripDR [] cs

/-- Remove every maximal run of four or more decimal digits (the digit
stripping substitution of guess_alt). -/
def stripDigitRuns (s : Str) : Str := stripDR [] s

/-- First invalid escape in a Python replacement template, if any.
Python's template compiler accepts the character escapes a b f n r t v,
a literal backslash, numeric group references, and named group
references; a backslash followed by any other ASCII letter is the error
"bad escape", raised before any match is attempted.  Returns the
offending letter. -/
def badTemplateEscape : Str → Option Char
  | [] => none
  | '\\' :: c :: rest =>
    if c = 'a' ∨ c = 'b' ∨ c = 'f' ∨ c = 'n' ∨ c = 'r' ∨ c = 't' ∨ c = 'v'
        ∨ c = '\\' ∨ c = 'g' ∨ c.isDigit then
      badTemplateEscape rest
    else if c.isAlpha then some c
    else badTemplateEscape rest
  | _ :: rest => badTemplateEscape rest

/-- Expansion of a (valid) replacement template against group 1: the
escape n becomes a newline, the reference 1 becomes the matched group,
and a doubled backslash becomes a backslash.  Only reached for templates
without bad escapes. -/
def expandTemplate (g1 : Str) : Str → Str
  | [] => []
  | '\\' :: c :: rest =>
    if c = 'n' then '\n' :: expandTemplate g1 rest
    else if c = '1' then g1 ++ expandTemplate g1 rest
    else if c = '\\' then '\\' :: expandTemplate g1 rest
    else '\\' :: c :: expandTemplate g1 rest
  | c :: rest => c :: expandTemplate g1 rest

/-- The literal usepackage command name. -/
def usepkTok : Str := "\\usepackage".toList

/-- Match a usepackage declaration for the given literal package name,
with an optional bracket-options group, at the head of s; returns
(matchedText, rest). -/
def matchUsepk (pkg : Str) (s : Str) : Option (Str × Str) :=
  if usepkTok.isPrefixOf s then
    let s1 := s.drop usepkTok.length
    match s1 with
    | '[' :: rest =>
      (match splitAtChar ']' rest with
       | some (inner, after) =>
         if ('\x7b' :: (pkg ++ ['\x7d'])).isPrefixOf after then
           some (usepkTok ++ '[' :: (inner ++ [']']) ++ '\x7b' :: (pkg ++ ['\x7d']),
                 after.drop (pkg.length + 2))
         else none
       | none => none)
    | _ =>
      if ('\x7b' :: (pkg ++ ['\x7d'])).isPrefixOf s1 then
        some (usepkTok ++ '\x7b' :: (pkg ++ ['\x7d']), s1.drop (pkg.length + 2))
      else none
  else none

/-- First match of the usepackage pattern in s: (before, matched, after). -/
def findUsepk (pkg : Str) : Str → Option (Str × Str × Str)
  | [] => none
  | c :: cs =>
    match matchUsepk pkg (c :: cs) with
    | some (m, rest) => some ([], m, rest)
    | none =>
      match findUsepk pkg cs with
      | some (b, m, r) => some (c :: b, m, r)
      | none => none

/-- The literal documentclass command name. -/
def docclassTok : Str := "\\documentclass".toList

/-- Match the documentclass pattern (optional bracket options, then a
nonempty brace argument) at the head of s; returns (matchedText, rest). -/
def matchDocclass (s : Str) : Option (Str × Str) :=
  if docclassTok.isPrefixOf s then
    match optsAndArg (s.drop docclassTok.length) with
    | some (opts, body, rest) =>
      some (docclassTok ++ opts ++ '\x7b' :: (body ++ ['\x7d']), rest)
    | none => none
  else none

/-- First match of the documentclass pattern: (before, matched, after). -/
def findDocclass : Str → Option (Str × Str × Str)
  | [] => none
  | c :: cs =>
    match matchDocclass (c :: cs) with
    | some (m, rest) => some ([], m, rest)
    | none =>
      match findDocclass cs with
      | some (b, m, r) => some (c :: b, m, r)
      | none => none

end Access

namespace Access.MAT

/- ── make_accessible_tex.py ──────────────────────────────────────────── -/

/-- ACCESSIBILITY_PACKAGES of make_accessible_tex.py. -/
def accPkgs : Str :=
  "\\usepackage[T1]\x7bfontenc\x7d\n\\usepackage\x7blmodern\x7d\n\\usepackage[utf8]\x7binputenc\x7d\n\\usepackage[english]\x7bbabel\x7d".toList

/-- build_hyperref_block of make_accessible_tex.py (AUTHOR, SUBJECT and
KEYWORDS are the placeholder configuration constants of the file). -/
def hyperref_block (title : Str) : Str :=
  "\\usepackage[pdftex,\n    pdftitle=\x7b".toList ++ title ++
  "\x7d,\n    pdfauthor=\x7bYour Name\x7d,\n    pdflang=\x7ben-US\x7d,\n    pdfsubject=\x7bYour Subject\x7d,\n    pdfkeywords=\x7bkeyword1, keyword2\x7d,\n    colorlinks=true,\n    linkcolor=blue,\n    urlcolor=blue,\n    citecolor=blue,\n    unicode]\x7bhyperref\x7d\n\\IfFileExists\x7bpdfcomment.sty\x7d\x7b\\usepackage\x7bpdfcomment\x7d\x7d\x7b\\newcommand\x7b\\pdftooltip\x7d[2]\x7b#1\x7d\x7d".toList

/-- already_patched of make_accessible_tex.py. -/
def already_patched (text : Str) : Bool :=
  containsSub "fontenc".toList text && containsSub "lmodern".toList text
    && containsSub "pdftitle".toList text

/-- Literal package names used by the preamble patcher's patterns. -/
def graphicxLit : Str := "graphicx".toList

/-- The hyperref package name literal. -/
def hyperrefLit : Str := "hyperref".toList

/-- Remove every match of the (possibly bracket-optioned) usepackage
hyperref pattern -- the count-unlimited empty-replacement substitution of
Case 1.  The skip counter consumes the remaining characters of a match. -/
def removeAllUsepk (pkg : Str) (skip : Nat) : Str → Str
  | [] => []
  | c :: cs =>
    match skip with
    | n + 1 => removeAllUsepk pkg n cs
    | 0 =>
      match matchUsepk pkg (c :: cs) with
      | some (m, _) => removeAllUsepk pkg (m.length - 1) cs
      | none => c :: removeAllUsepk pkg 0 cs

/-- Python re.sub with a string replacement template: the template is
compiled before any match is attempted, so a bad escape raises
re.error regardless of the subject text; otherwise the first match of
the usepackage pattern is replaced by the expanded template. -/
def subUsepkTemplate (pkg tmpl text : Str) : Except Char Str :=
  match badTemplateEscape tmpl with
  | some c => .error c
  | none =>
    .ok (match findUsepk pkg text with
         | some (b, m, a) => b ++ expandTemplate m tmpl ++ a
         | none => text)

/-- Python re.sub against the documentclass pattern, again compiling the
replacement template first. -/
def subDocclassTemplate (tmpl text : Str) : Except Char Str :=
  match badTemplateEscape tmpl with
  | some c => .error c
  | none =>
    .ok (match findDocclass text with
         | some (b, m, a) => b ++ expandTemplate m tmpl ++ a
         | none => text)

/-- patch_preamble of make_accessible_tex.py.  Case 1: a graphicx
declaration exists -- remove every bare hyperref declaration, then
substitute the template before graphicx.  Case 2: a bare hyperref
declaration exists -- substitute the template for it.  Case 3: substitute
after the documentclass declaration.  Every branch passes a replacement
template beginning with the text of ACCESSIBILITY_PACKAGES (or, in
Case 3, a group reference and newline escape followed by it), whose
backslash-u escape Python's template compiler rejects, so the call
raises re.error, modelled by the error result carrying the offending
letter. -/
def patch_preamble (text title : Str) : Except Char Str :=
  let hyp := hyperref_block title
  if (findUsepk graphicxLit text).isSome then
    subUsepkTemplate graphicxLit
      (accPkgs ++ "\\n\\1\\n".toList ++ hyp)
      (removeAllUsepk hyperrefLit 0 text)
  else if (findUsepk hyperrefLit text).isSome then
    subUsepkTemplate hyperrefLit (accPkgs ++ '\n' :: hyp) text
  else
    subDocclassTemplate ("\\1\\n".toList ++ accPkgs ++ '\n' :: hyp) text

/-- ALT_MARKER of make_accessible_tex.py. -/
def altMarker : Str := "***!!***Guess by make_accessible_tex.py:".toList

/-- The curated known-figure table of guess_alt. -/
def knownFigs : List (Str × Str) :=
  [("traystack".toList,
    "Photo of a spring-loaded cafeteria tray stack, analogy for the stack data structure".toList),
   ("pathfinder".toList, "NASA Mars Pathfinder rover".toList),
   ("rs232_serialbits".toList, "RS-232 serial bit frame timing diagram".toList),
   ("rs232_db25pinout".toList, "DB-25 connector pinout for RS-232".toList)]

/-- Lookup in the curated table. -/
def lookupKnown (name : Str) : Option Str :=
  match knownFigs.find? (fun kv => kv.1 == name) with
  | some kv => some kv.2
  | none => none

/-- guess_alt of make_accessible_tex.py: curated lookup on the lowercased
stem, else a readable guess with separators spaced and long digit runs
stripped. -/
def guess_alt (filename : Str) : Str :=
  let name := (pathStem filename).map lowerCh
  match lookupKnown name with
  | some desc => desc
  | none =>
    let r1 := name.map (fun c => if c = '-' ∨ c = '_' then ' ' else c)
    let r2 := pyStrip (stripDigitRuns r1)
    if r2.isEmpty then "Figure (".toList ++ pathName filename ++ [')']
    else "Figure: ".toList ++ r2

/-- The marked guess placed in the wrapper's second argument. -/
def mkAlt (fname : Str) : Str := altMarker ++ ' ' :: guess_alt fname

/-- A tooltip wrapper with the given alt text around a directive with the
given options and filename. -/
def wrapperOf (opts fname alt : Str) : Str :=
  tooltipOpen ++ (inclTok ++ opts ++ '\x7b' :: (fname ++ ['\x7d'])) ++
    '\x7d' :: '\x7b' :: (alt ++ ['\x7d'])

/-- The replacement emitted by wrap_images for an unwrapped directive. -/
def mkWrapper (opts fname : Str) : Str := wrapperOf opts fname (mkAlt fname)

/-- is_already_wrapped of make_accessible_tex.py, taking the text before
the match start: find the last tooltip opener in it and count net brace
depth from there; positive depth means still inside the first argument. -/
def is_already_wrapped (preceding : Str) : Bool :=
  match lastOccSuffix tooltipOpen preceding with
  | none => false
  | some suf => 0 < braceDepth suf

/-- Worker for wrap_images: pre is the consumed original text (the text
before the current scan position), skip the number of characters of an
already-emitted match still to consume. -/
def wrapGo (pre : Str) (skip : Nat) : Str → Str
  | [] => []
  | c :: cs =>
    match skip with
    | n + 1 => wrapGo (pre ++ [c]) n cs
    | 0 =>
      match matchIncl (c :: cs) with
      | some (m, opts, fname, _) =>
        (if is_already_wrapped pre then m else mkWrapper opts fname) ++
          wrapGo (pre ++ [c]) (m.length - 1) cs
      | none => c :: wrapGo (pre ++ [c]) 0 cs

/-- wrap_images of make_accessible_tex.py: scan matches of INCL_RE left
to right, copy a match through when is_already_wrapped holds at its start
position, otherwise emit the tooltip wrapper with the marked guess. -/
def wrap_images (text : Str) : Str := wrapGo [] 0 text

/-- The tooltip-wrapped-directive opener literal of the extraction
pattern. -/
def ttInclTok : Str := "\\pdftooltip\x7b\\includegraphics".toList

/-- Match the extraction pattern of extract_alt_map at the head of s:
a tooltip wrapper whose first argument is exactly one image-inclusion
directive.  Returns (matchedText, filenameGroup, altGroup, rest). -/
def matchTooltip (s : Str) : Option (Str × Str × Str × Str) :=
  if ttInclTok.isPrefixOf s then
    match optsAndArg (s.drop ttInclTok.length) with
    | some (opts, g1, rest1) =>
      (match rest1 with
       | '\x7d' :: rest2 =>
         (match braceArg rest2 with
          | some (g2, rest3) =>
            some (ttInclTok ++ opts ++ '\x7b' :: (g1 ++ ['\x7d']) ++
                    '\x7d' :: '\x7b' :: (g2 ++ ['\x7d']), g1, g2, rest3)
          | none => none)
       | _ => none)
    | none => none
  else none

/-- Insert into the alt map with Python dict semantics: an existing key
keeps its position and is overwritten, a new key is appended. -/
def insertAssoc (m : List (Str × Str)) (k v : Str) : List (Str × Str) :=
  match m with
  | [] => [(k, v)]
  | (k', v') :: t => if k' == k then (k, v) :: t else (k', v') :: insertAssoc t k v

/-- Worker for extract_alt_map, scanning for non-overlapping matches of
the extraction pattern. -/
def extractGo (acc : List (Str × Str)) (skip : Nat) : Str → List (Str × Str)
  | [] => acc
  | c :: cs =>
    match skip with
    | n + 1 => extractGo acc n cs
    | 0 =>
      match matchTooltip (c :: cs) with
      | some (m, g1, g2, _) =>
        extractGo (insertAssoc acc (pathName g1) (pyStrip g2)) (m.length - 1) cs
      | none => extractGo acc 0 cs

/-- extract_alt_map of make_accessible_tex.py: map each wrapped
directive's filename basename to its stripped alt text, later entries
overwriting earlier ones of the same basename. -/
def extract_alt_map (text : Str) : List (Str × Str) := extractGo [] 0 text

/-- The sequence of (options, filename) groups of the INCL_RE matches of
a text, scanned non-overlapping left to right -- the abstraction the
directive-preservation property compares. -/
def inclGo (skip : Nat) : Str → List (Str × Str)
  | [] => []
  | c :: cs =>
    match skip with
    | n + 1 => inclGo n cs
    | 0 =>
      match matchIncl (c :: cs) with
      | some (m, opts, fname, _) => (opts, fname) :: inclGo (m.length - 1) cs
      | none => inclGo 0 cs

/-- Top-level directive-sequence extraction. -/
def inclDirectives (text : Str) : List (Str × Str) := inclGo 0 text

end Access.MAT

namespace Access.MA

/- ── make_accessible.py ──────────────────────────────────────────────── -/

/-- PREAMBLE_TEMPLATE of make_accessible.py, formatted with the stream
tag px. -/
def preambleBlock (px : Str) : Str :=
  px ++ "\\usepackage[T1]\x7bfontenc\x7d\n".toList ++
  px ++ "\\usepackage\x7blmodern\x7d\n".toList ++
  px ++ "\\usepackage[utf8]\x7binputenc\x7d\n".toList ++
  px ++ "\\usepackage[english]\x7bbabel\x7d".toList

/-- HYPERREF_TEMPLATE of make_accessible.py, formatted with the stream
tag px, the per-file title, and the module constants AUTHOR, SUBJECT and
KEYWORDS. -/
def hyperrefBlock (px title : Str) : Str :=
  px ++ "\\usepackage[pdftex,\n".toList ++
  px ++ "    pdftitle=\x7b".toList ++ title ++ "\x7d,\n".toList ++
  px ++ "    pdfauthor=\x7bBlake Hannaford, University of Washington\x7d,\n".toList ++
  px ++ "    pdflang=\x7ben-US\x7d,\n".toList ++
  px ++ "    pdfsubject=\x7bECE 474 Embedded Microcomputer Systems\x7d,\n".toList ++
  px ++ "    pdfkeywords=\x7bembedded systems, microcontrollers, ECE 474\x7d,\n".toList ++
  px ++ "    colorlinks=true,\n".toList ++
  px ++ "    linkcolor=blue,\n".toList ++
  px ++ "    urlcolor=blue,\n".toList ++
  px ++ "    citecolor=blue,\n".toList ++
  px ++ "    unicode]\x7bhyperref\x7d\n".toList ++
  px ++ "\\IfFileExists\x7bpdfcomment.sty\x7d\x7b\\usepackage\x7bpdfcomment\x7d\x7d\x7b\\newcommand\x7b\\pdftooltip\x7d[2]\x7b#1\x7d\x7d".toList

/-- already_patched of make_accessible.py: true only if the preamble
markers AND the pdftooltip definition marker are all present. -/
def already_patched (text : Str) : Bool :=
  containsSub "fontenc".toList text && containsSub "lmodern".toList text
    && containsSub "pdftitle".toList text && containsSub "pdfcomment".toList text

/-- The bare graphicx line literal of the main pattern. -/
def graphicxLine (px : Str) : Str := px ++ "\\usepackage\x7bgraphicx\x7d\n".toList

/-- The bare hyperref line literal of the main pattern. -/
def hyperrefLine (px : Str) : Str := px ++ "\\usepackage\x7bhyperref\x7d\n".toList

/-- The optional listings line literal of the main pattern. -/
def listingsLine (px : Str) : Str := px ++ "\\usepackage\x7blistings\x7d\n".toList

/-- The bare hyperref declaration literal of the fallback pattern. -/
def bareHyperref (px : Str) : Str := px ++ "\\usepackage\x7bhyperref\x7d".toList

/-- Match the main pattern of patch_preamble at the head of s: a graphicx
line, a hyperref line, and an optional (greedy) listings line, each
tagged with the escaped stream tag px.  Returns (graphicxGroup,
listingsGroup, rest). -/
def mainMatch (px : Str) (s : Str) : Option (Str × Str × Str) :=
  if (graphicxLine px).isPrefixOf s then
    let s1 := s.drop (graphicxLine px).length
    if (hyperrefLine px).isPrefixOf s1 then
      let s2 := s1.drop (hyperrefLine px).length
      if (listingsLine px).isPrefixOf s2 then
        some (graphicxLine px, listingsLine px, s2.drop (listingsLine px).length)
      else some (graphicxLine px, [], s2)
    else none
  else none

/-- First match of the main pattern: (before, graphicxGroup,
listingsGroup, rest). -/
def mainFind (px : Str) : Str → Option (Str × Str × Str × Str)
  | [] => none
  | c :: cs =>
    match mainMatch px (c :: cs) with
    | some (g1, g3, rest) => some ([], g1, g3, rest)
    | none =>
      match mainFind px cs with
      | some (b, g1, g3, r) => some (c :: b, g1, g3, r)
      | none => none

/-- First occurrence of the bare hyperref declaration literal:
(before, after). -/
def bareFind (px : Str) : Str → Option (Str × Str)
  | [] => none
  | c :: cs =>
    if (bareHyperref px).isPrefixOf (c :: cs) then
      some ([], (c :: cs).drop (bareHyperref px).length)
    else
      match bareFind px cs with
      | some (b, a) => some (c :: b, a)
      | none => none

/-- patch_preamble of make_accessible.py.  The main substitution replaces
the first graphicx-hyperref(-listings) line run with the preamble block,
the kept graphicx line, the hyperref block and the kept listings line;
if it did not match, the first bare hyperref declaration is replaced by
the hyperref block alone; if the text is then still unchanged, the
preamble and hyperref blocks are inserted after the first documentclass
declaration. -/
def patch_preamble (text px title : Str) : Str :=
  let preamble := preambleBlock px
  let hyp := hyperrefBlock px title
  let nt1 :=
    match mainFind px text with
    | some (b, g1, g3, rest) =>
      b ++ preamble ++ '\n' :: (g1 ++ hyp ++ '\n' :: (g3 ++ rest))
    | none =>
      match bareFind px text with
      | some (b, a) => b ++ hyp ++ a
      | none => text
  if nt1 == text then
    match findDocclass text with
    | some (b, m, a) => b ++ (m ++ '\n' :: (preamble ++ '\n' :: hyp)) ++ a
    | none => text
  else nt1

/-- Match the stream-tag detection pattern of apply_pdf_accessibility at
the head of s: an angle-bracketed lowercase tag immediately followed by
the bare hyperref declaration; returns the tag. -/
def matchTag (s : Str) : Option Str :=
  match s with
  | '<' :: rest =>
    let run := rest.takeWhile (fun c => decide ('a' ≤ c) && decide (c ≤ 'z'))
    if run.isEmpty then none
    else
      match rest.drop run.length with
      | '>' :: rest3 =>
        if "\\usepackage\x7bhyperref\x7d".toList.isPrefixOf rest3 then
          some ('<' :: (run ++ ['>']))
        else none
      | _ => none
  | _ => none

/-- Stream-tag detection of apply_pdf_accessibility: the tag of the
first tagged hyperref declaration, else the empty tag. -/
def detectTag : Str → Str
  | [] => []
  | c :: cs =>
    match matchTag (c :: cs) with
    | some px => px
    | none => detectTag cs

/-- The preamble step of apply_pdf_accessibility: skip when the marker
check already_patched holds, else patch with the detected stream tag. -/
def patchStep (title text : Str) : Str :=
  if already_patched text then text
  else patch_preamble text (detectTag text) title

end Access.MA

namespace Access

/- ── A model of well-formed sources, for the universal properties ────── -/

/-- No occurrence of the character c. -/
def noCh (c : Char) (s : Str) : Bool := s.all (fun x => !(x == c))

/-- No backslash at all. -/
def noBackslash (s : Str) : Bool := noCh '\\' s

/-- Every backslash is immediately followed by the letter i (as in the
image-inclusion command), so no tooltip opener can occur. -/
def bsOnlyI : Str → Bool
  | [] => true
  | c :: cs => (if c = '\\' then cs.head? == some 'i' else true) && bsOnlyI cs

/-- An image-inclusion directive: an optional bracket-options interior
and a target filename. -/
structure Dir where
  optsInner : Option Str
  fname : Str

/-- The options text of a directive as it appears in source. -/
def optsText (d : Dir) : Str :=
  match d.optsInner with
  | none => []
  | some i => '[' :: (i ++ [']'])

/-- The full source text of a directive. -/
def dirText (d : Dir) : Str :=
  inclTok ++ optsText d ++ '\x7b' :: (d.fname ++ ['\x7d'])

/-- Well-formedness of an options interior: it closes at its own bracket
and contains no backslash. -/
def OptsInnerOk : Option Str → Prop
  | none => True
  | some i => noCh ']' i = true ∧ noBackslash i = true

instance : DecidablePred OptsInnerOk := fun o =>
  match o with
  | none => inferInstanceAs (Decidable True)
  | some _ => inferInstanceAs (Decidable (_ ∧ _))

/-- Well-formedness of a directive: the options interior closes at its
own bracket and contains no backslash; the filename is nonempty, closes
at its own brace and contains no backslash; and the marked guess built
from the filename is nonempty, contains no backslash and no closing
brace, and is strip-invariant. -/
def DirOk (d : Dir) : Prop :=
  OptsInnerOk d.optsInner
    ∧ d.fname ≠ [] ∧ noCh '\x7d' d.fname = true ∧ noBackslash d.fname = true
    ∧ MAT.mkAlt d.fname ≠ [] ∧ noBackslash (MAT.mkAlt d.fname) = true
    ∧ noCh '\x7d' (MAT.mkAlt d.fname) = true
    ∧ pyStrip (MAT.mkAlt d.fname) = MAT.mkAlt d.fname

instance : DecidablePred DirOk := fun _ =>
  inferInstanceAs (Decidable (_ ∧ _))

/-- A segment of a well-formed source: backslash-free running text, or a
well-formed directive. -/
inductive Seg where
  | txt : Str → Seg
  | dir : Dir → Seg

/-- Well-formedness of one segment. -/
def SegOk : Seg → Prop
  | .txt t => noBackslash t = true
  | .dir d => DirOk d

instance : DecidablePred SegOk := fun sg =>
  match sg with
  | .txt _ => inferInstanceAs (Decidable (_ = _))
  | .dir d => inferInstanceAs (Decidable (DirOk d))

/-- Well-formedness of a segment list. -/
def TameSegs (l : List Seg) : Prop := ∀ sg ∈ l, SegOk sg

instance : DecidablePred TameSegs := fun l =>
  List.decidableBAll SegOk l

/-- The source text of one segment. -/
def renderSeg : Seg → Str
  | .txt t => t
  | .dir d => dirText d

/-- The source text of a segment list. -/
def renderSegs : List Seg → Str
  | [] => []
  | sg :: rest => renderSeg sg ++ renderSegs rest

/-- One segment after image wrapping: text unchanged, directives
wrapped. -/
def wrapSeg : Seg → Str
  | .txt t => t
  | .dir d => MAT.mkWrapper (optsText d) d.fname

/-- A segment list after image wrapping. -/
def renderWrapped : List Seg → Str
  | [] => []
  | sg :: rest => wrapSeg sg ++ renderWrapped rest

/-- The (options, filename) sequence of a segment list. -/
def dirSeq : List Seg → List (Str × Str)
  | [] => []
  | .txt _ :: rest => dirSeq rest
  | .dir d :: rest => (optsText d, d.fname) :: dirSeq rest

/-- The alt map a segment list gives rise to. -/
def mapOfSegs (acc : List (Str × Str)) : List Seg → List (Str × Str)
  | [] => acc
  | .txt _ :: rest => mapOfSegs acc rest
  | .dir d :: rest =>
    mapOfSegs (MAT.insertAssoc acc (pathName d.fname) (pyStrip (MAT.mkAlt d.fname))) rest

/- ── Concrete inputs used by the counterexamples and evaluations ─────── -/

/-- Counterexample input for wrap idempotence: a tooltip opener inside a
directive's options block. -/
def cexWrap : Str := "\\includegraphics[\\pdftooltip\x7b]\x7bfig\x7d\\includegraphics\x7bb\x7d".toList

/-- Counterexample input for directive preservation: a directive whose
filename argument contains another image-inclusion command. -/
def cexSeq : Str := "\\includegraphics\x7b\\includegraphics\x7ba\x7d".toList

/-- Counterexample input for wrapped detection: a directive inside the
first argument of an outer tooltip wrapper, preceded by a closed inner
wrapper. -/
def cexNested : Str := "\\pdftooltip\x7b\\pdftooltip\x7bx\x7d\x7by\x7d\\includegraphics\x7ba\x7d\x7d\x7bz\x7d".toList

/-- Failing input for preamble-patch idempotence: a class declaration and
a bare hyperref declaration. -/
def c1Input : Str := "\\documentclass\x7barticle\x7d\n\\usepackage\x7bhyperref\x7d\n".toList

/-- A concrete title used by the closed evaluations. -/
def title0 : Str := "My Title".toList

/-- Failing input for the preamble anchor-priority scenario: both a
graphicx and a bare hyperref declaration. -/
def c4Input : Str :=
  "\\documentclass\x7barticle\x7d\n\\usepackage\x7bgraphicx\x7d\n\\usepackage\x7bhyperref\x7d\n".toList

/-- A concrete directive used by the hand-written wrapped unit. -/
def d0img : Dir := ⟨none, "img".toList⟩

/-- A hand-written (unmarked) alt text. -/
def handAlt : Str := "hand-written description".toList

/-- The hand-written wrapped unit of the wrapped-detection property. -/
def unitBlock : Str := MAT.wrapperOf (optsText d0img) d0img.fname handAlt

/-- Repetition of the hand-written wrapped unit. -/
def repBlock : Nat → Str
  | 0 => []
  | n + 1 => unitBlock ++ repBlock n

end Access

namespace Access

theorem isPrefixOf_append_self (p b : Str) : p.isPrefixOf (p ++ b) = true := by
  induction p with
  | nil => simp [List.isPrefixOf]
  | cons c cs ih => simp [List.isPrefixOf, ih]

theorem eq_append_of_isPrefixOf {p s : Str} (h : p.isPrefixOf s = true) :
    s = p ++ s.drop p.length := by
  induction p generalizing s with
  | nil => simp
  | cons c cs ih =>
    cases s with
    | nil => simp [List.isPrefixOf] at h
    | cons x xs =>
      simp only [List.isPrefixOf, Bool.and_eq_true, beq_iff_eq] at h
      obtain ⟨h1, h2⟩ := h
      simpa [h1] using ih h2

theorem containsSub_nil_pat (s : Str) : containsSub [] s = true := by
  cases s <;> simp [containsSub, List.isPrefixOf]

theorem containsSub_here (p b : Str) : containsSub p (p ++ b) = true := by
  cases p with
  | nil => simpa using containsSub_nil_pat b
  | cons c cs => simp [containsSub, isPrefixOf_append_self]

theorem containsSub_parts (p a b : Str) : containsSub p (a ++ (p ++ b)) = true := by
  induction a with
  | nil => simpa using containsSub_here p b
  | cons c a' ih => simp [containsSub, ih]

theorem splitAtChar_first {a : Str} (c : Char) (b : Str) (h : noCh c a = true) :
    splitAtChar c (a ++ c :: b) = some (a, b) := by
  induction a with
  | nil => simp [splitAtChar]
  | cons x xs ih =>
    simp only [noCh, List.all_cons, Bool.and_eq_true, Bool.not_eq_true', beq_eq_false_iff_ne,
      ne_eq] at h
    simp only [List.cons_append, splitAtChar, if_neg h.1]
    simp [ih (by simp [noCh, h.2])]

theorem splitAtChar_sound {c : Char} {s a b : Str} (h : splitAtChar c s = some (a, b)) :
    s = a ++ c :: b := by
  induction s generalizing a b with
  | nil => simp [splitAtChar] at h
  | cons x xs ih =>
    simp only [splitAtChar] at h
    by_cases hx : x = c
    · simp [hx] at h
      simp [h.1.symm, h.2, hx]
    · simp only [if_neg hx] at h
      cases hs : splitAtChar c xs with
      | none => rw [hs] at h; simp at h
      | some ab =>
        rw [hs] at h
        obtain ⟨a', b'⟩ := ab
        simp only [Option.some.injEq, Prod.mk.injEq] at h
        obtain ⟨h1, h2⟩ := h
        subst h2
        rw [← h1]
        simp [ih hs]

theorem braceArg_first {f : Str} (r : Str) (hne : f ≠ []) (h : noCh '\x7d' f = true) :
    braceArg ('\x7b' :: (f ++ '\x7d' :: r)) = some (f, r) := by
  simp only [braceArg]
  rw [splitAtChar_first '\x7d' r h]
  simp [hne]

theorem braceArg_sound {s f r : Str} (h : braceArg s = some (f, r)) :
    s = '\x7b' :: (f ++ '\x7d' :: r) := by
  unfold braceArg at h
  split at h
  · next rest =>
    cases hs : splitAtChar '\x7d' rest with
    | none => rw [hs] at h; simp at h
    | some ab =>
      rw [hs] at h
      obtain ⟨a', b'⟩ := ab
      by_cases he : a'.isEmpty
      · simp [he] at h
      · simp only [he, Bool.false_eq_true, if_false, Option.some.injEq, Prod.mk.injEq] at h
        obtain ⟨h1, h2⟩ := h
        subst h1; subst h2
        simp [splitAtChar_sound hs]
  · simp at h

theorem optsAndArg_none_first {f : Str} (r : Str) (hne : f ≠ []) (h : noCh '\x7d' f = true) :
    optsAndArg ('\x7b' :: (f ++ '\x7d' :: r)) = some ([], f, r) := by
  unfold optsAndArg
  split
  · next rest heq => simp at heq
  · rw [braceArg_first r hne h]

theorem optsAndArg_opts_first {i f : Str} (r : Str) (hi : noCh ']' i = true) (hne : f ≠ [])
    (hf : noCh '\x7d' f = true) :
    optsAndArg ('[' :: (i ++ ']' :: ('\x7b' :: (f ++ '\x7d' :: r))))
      = some ('[' :: (i ++ [']']), f, r) := by
  unfold optsAndArg
  split
  · next rest heq =>
    simp only [List.cons.injEq] at heq
    rw [← heq.2]
    rw [splitAtChar_first ']' ('\x7b' :: (f ++ '\x7d' :: r)) hi]
    simp [braceArg_first r hne hf]
  · next hne2 => exact absurd rfl (hne2 _)

theorem optsAndArg_sound {s o f r : Str} (h : optsAndArg s = some (o, f, r)) :
    s = o ++ '\x7b' :: (f ++ '\x7d' :: r) := by
  unfold optsAndArg at h
  split at h
  · next rest =>
    split at h
    · next inner after heq =>
      split at h
      · next arg rest2 heq2 =>
        simp only [Option.some.injEq, Prod.mk.injEq] at h
        obtain ⟨h1, h2, h3⟩ := h
        subst h2; subst h3
        rw [← h1]
        simp [splitAtChar_sound heq, braceArg_sound heq2]
      · simp at h
    · simp at h
  · split at h
    · next arg rest2 heq2 =>
      simp only [Option.some.injEq, Prod.mk.injEq] at h
      obtain ⟨h1, h2, h3⟩ := h
      subst h2; subst h3
      rw [← h1]
      simpa using braceArg_sound heq2
    · simp at h

theorem matchIncl_sound {s m o f r : Str} (h : matchIncl s = some (m, o, f, r)) :
    s = m ++ r ∧ m = inclTok ++ o ++ '\x7b' :: (f ++ ['\x7d']) := by
  unfold matchIncl at h
  split at h
  · next hp =>
    split at h
    · next o' f' r' heq =>
      simp only [Option.some.injEq, Prod.mk.injEq] at h
      obtain ⟨h1, h2, h3, h4⟩ := h
      subst h2; subst h3; subst h4
      refine ⟨?_, h1.symm⟩
      rw [← h1]
      have hs := eq_append_of_isPrefixOf hp
      conv_lhs => rw [hs]
      rw [optsAndArg_sound heq]
      simp
    · simp at h
  · simp at h

theorem matchIncl_not_bs {c : Char} (cs : Str) (h : c ≠ '\\') : matchIncl (c :: cs) = none := by
  have ht : inclTok = '\\' :: "includegraphics".toList := by decide
  unfold matchIncl
  rw [ht]
  simp [List.isPrefixOf, Ne.symm h]

theorem matchIncl_bs_not_i {c : Char} (cs : Str) (h : c ≠ 'i') :
    matchIncl ('\\' :: c :: cs) = none := by
  have ht : inclTok = '\\' :: 'i' :: "ncludegraphics".toList := by decide
  unfold matchIncl
  rw [ht]
  simp [List.isPrefixOf, Ne.symm h]

theorem matchIncl_dir {d : Dir} (rest : Str) (hd : DirOk d) :
    matchIncl (dirText d ++ rest) = some (dirText d, optsText d, d.fname, rest) := by
  obtain ⟨ho, hfne, hf2, hf3, -⟩ := hd
  have hshape : dirText d ++ rest
      = inclTok ++ (optsText d ++ ('\x7b' :: (d.fname ++ ['\x7d']) ++ rest)) := by
    simp [dirText, List.append_assoc]
  unfold matchIncl
  rw [hshape, isPrefixOf_append_self, if_pos rfl, List.drop_left]
  cases hoi : d.optsInner with
  | none =>
    have hot : optsText d = [] := by simp [optsText, hoi]
    rw [hot]
    rw [show ([] : Str) ++ ('\x7b' :: (d.fname ++ ['\x7d']) ++ rest)
          = '\x7b' :: (d.fname ++ '\x7d' :: rest) from by simp]
    rw [optsAndArg_none_first rest hfne hf2]
    simp [dirText, hot]
  | some i =>
    rw [hoi] at ho
    rw [show OptsInnerOk (some i) = (noCh ']' i = true ∧ noBackslash i = true) from rfl] at ho
    have hot : optsText d = '[' :: (i ++ [']']) := by simp [optsText, hoi]
    rw [hot]
    rw [show ('[' :: (i ++ [']'])) ++ ('\x7b' :: (d.fname ++ ['\x7d']) ++ rest)
          = '[' :: (i ++ ']' :: ('\x7b' :: (d.fname ++ '\x7d' :: rest))) from by simp]
    rw [optsAndArg_opts_first rest ho.1 hfne hf2]
    simp [dirText, hot]

theorem bsOnlyI_of_noBackslash {s : Str} (h : noBackslash s = true) : bsOnlyI s = true := by
  induction s with
  | nil => rfl
  | cons c cs ih =>
    simp only [noBackslash, noCh, List.all_cons, Bool.and_eq_true, Bool.not_eq_true',
      beq_eq_false_iff_ne, ne_eq] at h
    simp only [bsOnlyI, if_neg h.1, Bool.true_and]
    exact ih (by simp [noBackslash, noCh, h.2])

theorem bsOnlyI_tail {c : Char} {cs : Str} (h : bsOnlyI (c :: cs) = true) : bsOnlyI cs = true := by
  simp only [bsOnlyI, Bool.and_eq_true] at h
  exact h.2

theorem bsOnlyI_append {a b : Str} (ha : bsOnlyI a = true) (hb : bsOnlyI b = true) :
    bsOnlyI (a ++ b) = true := by
  induction a with
  | nil => simpa using hb
  | cons c a' ih =>
    simp only [bsOnlyI, Bool.and_eq_true] at ha ⊢
    refine ⟨?_, ih ha.2⟩
    by_cases hc : c = '\\'
    · simp only [if_pos hc]
      simp only [if_pos hc] at ha
      cases a' with
      | nil => simp at ha
      | cons x xs =>
        simp only [List.head?] at ha
        simpa [List.head?] using ha.1
    · simp [hc]

theorem lastOccSuffix_step (p : Str) (c : Char) (cs : Str) :
    lastOccSuffix p (c :: cs)
      = match lastOccSuffix p cs with
        | some suf => some suf
        | none => if p.isPrefixOf (c :: cs) then some (c :: cs) else none := rfl

theorem lastOccSuffix_none_of_bsOnlyI {s : Str} (h : bsOnlyI s = true) :
    lastOccSuffix tooltipOpen s = none := by
  induction s with
  | nil => decide
  | cons c cs ih =>
    rw [lastOccSuffix_step, ih (bsOnlyI_tail h)]
    have ht : tooltipOpen = '\\' :: 'p' :: "dftooltip\x7b".toList := by decide
    rw [ht]
    by_cases hc : c = '\\'
    · subst hc
      have h' : (cs.head? == some 'i') = true := by
        have := h
        simp only [bsOnlyI, Bool.and_eq_true] at this
        simpa using this.1
      cases cs with
      | nil => simp at h'
      | cons x xs =>
        have hx : x = 'i' := by simpa [List.head?] using h'
        simp [List.isPrefixOf, hx]
    · simp [List.isPrefixOf, Ne.symm hc]

theorem lastOccSuffix_append_right {p s suf : Str} (a : Str)
    (h : lastOccSuffix p s = some suf) : lastOccSuffix p (a ++ s) = some suf := by
  induction a with
  | nil => simpa using h
  | cons c a' ih => simp [lastOccSuffix, ih]

theorem lastOccSuffix_self_append {b : Str} (hb : bsOnlyI b = true) :
    lastOccSuffix tooltipOpen (tooltipOpen ++ b) = some (tooltipOpen ++ b) := by
  have ht : tooltipOpen = '\\' :: "pdftooltip\x7b".toList := by decide
  have htail : bsOnlyI ("pdftooltip\x7b".toList ++ b) = true := by
    refine bsOnlyI_append ?_ hb
    apply bsOnlyI_of_noBackslash
    decide
  conv_lhs => rw [ht, List.cons_append, lastOccSuffix_step]
  rw [← ht]
  rw [lastOccSuffix_none_of_bsOnlyI htail]
  rw [show ('\\' :: ("pdftooltip\x7b".toList ++ b)) = tooltipOpen ++ b from by rw [ht]; simp]
  rw [isPrefixOf_append_self]
  rfl

theorem lastOccSuffix_at_end (a : Str) :
    lastOccSuffix tooltipOpen (a ++ tooltipOpen) = some tooltipOpen := by
  have h0 : lastOccSuffix tooltipOpen tooltipOpen = some tooltipOpen := by
    have := lastOccSuffix_self_append (b := []) (by rfl)
    simpa using this
  exact lastOccSuffix_append_right a h0

theorem is_already_wrapped_at_tok (a : Str) :
    MAT.is_already_wrapped (a ++ tooltipOpen) = true := by
  unfold MAT.is_already_wrapped
  rw [lastOccSuffix_at_end]
  decide

theorem is_already_wrapped_of_bsOnlyI {s : Str} (h : bsOnlyI s = true) :
    MAT.is_already_wrapped s = false := by
  unfold MAT.is_already_wrapped
  rw [lastOccSuffix_none_of_bsOnlyI h]

theorem wrapGo_nil (pre : Str) (skip : Nat) : MAT.wrapGo pre skip [] = [] := rfl

theorem wrapGo_stepS (pre : Str) (n : Nat) (c : Char) (cs : Str) :
    MAT.wrapGo pre (n + 1) (c :: cs) = MAT.wrapGo (pre ++ [c]) n cs := rfl

theorem wrapGo_cons_nomatch (pre : Str) {c : Char} {cs : Str}
    (h : matchIncl (c :: cs) = none) :
    MAT.wrapGo pre 0 (c :: cs) = c :: MAT.wrapGo (pre ++ [c]) 0 cs := by
  show (match matchIncl (c :: cs) with
        | some (m, opts, fname, _) =>
          (if MAT.is_already_wrapped pre then m else MAT.mkWrapper opts fname) ++
            MAT.wrapGo (pre ++ [c]) (m.length - 1) cs
        | none => c :: MAT.wrapGo (pre ++ [c]) 0 cs) = _
  rw [h]

theorem wrapGo_cons_match (pre : Str) {c : Char} {cs m o f r : Str}
    (h : matchIncl (c :: cs) = some (m, o, f, r)) :
    MAT.wrapGo pre 0 (c :: cs)
      = (if MAT.is_already_wrapped pre then m else MAT.mkWrapper o f) ++
          MAT.wrapGo (pre ++ [c]) (m.length - 1) cs := by
  show (match matchIncl (c :: cs) with
        | some (m, opts, fname, _) =>
          (if MAT.is_already_wrapped pre then m else MAT.mkWrapper opts fname) ++
            MAT.wrapGo (pre ++ [c]) (m.length - 1) cs
        | none => c :: MAT.wrapGo (pre ++ [c]) 0 cs) = _
  rw [h]

theorem wrapGo_skip (t : Str) (pre rest : Str) :
    MAT.wrapGo pre t.length (t ++ rest) = MAT.wrapGo (pre ++ t) 0 rest := by
  induction t generalizing pre with
  | nil => simp
  | cons c t' ih =>
    rw [List.cons_append, List.length_cons, wrapGo_stepS, ih (pre ++ [c])]
    simp

theorem wrapGo_clean {t : Str} (h : noBackslash t = true) (pre rest : Str) :
    MAT.wrapGo pre 0 (t ++ rest) = t ++ MAT.wrapGo (pre ++ t) 0 rest := by
  induction t generalizing pre with
  | nil => simp
  | cons c t' ih =>
    simp only [noBackslash, noCh, List.all_cons, Bool.and_eq_true, Bool.not_eq_true',
      beq_eq_false_iff_ne, ne_eq] at h
    rw [List.cons_append, wrapGo_cons_nomatch pre (matchIncl_not_bs _ h.1)]
    rw [ih (by simp [noBackslash, noCh, h.2]) (pre ++ [c])]
    simp

theorem wrapGo_match {s m o f r : Str} (pre : Str) (hm : matchIncl s = some (m, o, f, r)) :
    MAT.wrapGo pre 0 s
      = (if MAT.is_already_wrapped pre then m else MAT.mkWrapper o f) ++
          MAT.wrapGo (pre ++ m) 0 r := by
  obtain ⟨hs, hm2⟩ := matchIncl_sound hm
  cases hmc : m with
  | nil =>
    exfalso
    rw [hmc] at hm2
    have ht : inclTok = '\\' :: "includegraphics".toList := by decide
    rw [ht] at hm2
    simp at hm2
  | cons c mt =>
    subst hmc
    rw [hs] at hm ⊢
    rw [show ((c :: mt) ++ r : Str) = c :: (mt ++ r) from by simp] at hm
    rw [show ((c :: mt) ++ r : Str) = c :: (mt ++ r) from by simp]
    rw [wrapGo_cons_match pre hm]
    simp only [List.length_cons, Nat.add_sub_cancel]
    rw [wrapGo_skip mt (pre ++ [c]) r]
    simp

theorem wrapGo_tooltipOpen (pre rest : Str) :
    MAT.wrapGo pre 0 (tooltipOpen ++ rest)
      = tooltipOpen ++ MAT.wrapGo (pre ++ tooltipOpen) 0 rest := by
  have ht : tooltipOpen = '\\' :: 'p' :: "dftooltip\x7b".toList := by decide
  rw [ht, List.cons_append]
  rw [wrapGo_cons_nomatch pre (by rw [List.cons_append]; exact matchIncl_bs_not_i _ (by decide))]
  rw [List.cons_append]
  rw [show 'p' :: ("dftooltip\x7b".toList ++ rest) = ('p' :: "dftooltip\x7b".toList) ++ rest from
        by simp]
  rw [wrapGo_clean (t := 'p' :: "dftooltip\x7b".toList) (by decide) (pre ++ ['\\']) rest]
  simp

theorem bsOnlyI_step (c : Char) (cs : Str) :
    bsOnlyI (c :: cs) = ((if c = '\\' then cs.head? == some 'i' else true) && bsOnlyI cs) := rfl

theorem noBackslash_optsText {d : Dir} (hd : DirOk d) : noBackslash (optsText d) = true := by
  obtain ⟨hO, -⟩ := hd
  cases hoi : d.optsInner with
  | none => simp [optsText, hoi, noBackslash, noCh]
  | some i =>
    rw [hoi] at hO
    obtain ⟨-, hib⟩ := hO
    simp only [optsText, hoi, noBackslash, noCh, List.all_cons, List.all_append, List.all_nil,
      Bool.and_eq_true]
    refine ⟨by decide, ?_, by decide⟩
    simpa [noBackslash, noCh] using hib

theorem bsOnlyI_dirText {d : Dir} (hd : DirOk d) : bsOnlyI (dirText d) = true := by
  have hfb := hd.2.2.2.1
  have ht : inclTok = '\\' :: 'i' :: "ncludegraphics".toList := by decide
  have hshape : dirText d = '\\' :: 'i' ::
      ("ncludegraphics".toList ++ (optsText d ++ '\x7b' :: (d.fname ++ ['\x7d']))) := by
    simp [dirText, ht, List.append_assoc]
  rw [hshape, bsOnlyI_step, bsOnlyI_step]
  simp only [List.head?, if_pos rfl, Option.some.injEq, beq_self_eq_true, Bool.true_and,
    if_neg (by decide : ¬('i' = '\\'))]
  apply bsOnlyI_of_noBackslash
  simp only [noBackslash, noCh, List.all_append, List.all_cons, Bool.and_eq_true]
  refine ⟨by decide, ?_, by decide, ?_, by decide⟩
  · simpa [noBackslash, noCh] using noBackslash_optsText hd
  · simpa [noBackslash, noCh] using hfb

theorem wrapGo_block {d : Dir} {alt : Str} (pre rest : Str) (hd : DirOk d)
    (haltb : noBackslash alt = true) :
    MAT.wrapGo pre 0 (MAT.wrapperOf (optsText d) d.fname alt ++ rest)
      = MAT.wrapperOf (optsText d) d.fname alt ++
          MAT.wrapGo (pre ++ MAT.wrapperOf (optsText d) d.fname alt) 0 rest := by
  have hshape : MAT.wrapperOf (optsText d) d.fname alt ++ rest
      = tooltipOpen ++ (dirText d ++ (('\x7d' :: '\x7b' :: (alt ++ ['\x7d'])) ++ rest)) := by
    simp [MAT.wrapperOf, dirText, List.append_assoc]
  rw [hshape, wrapGo_tooltipOpen]
  rw [wrapGo_match (pre ++ tooltipOpen) (matchIncl_dir _ hd)]
  rw [is_already_wrapped_at_tok, if_pos rfl]
  rw [wrapGo_clean (t := '\x7d' :: '\x7b' :: (alt ++ ['\x7d'])) (by
        simp only [noBackslash, noCh, List.all_cons, List.all_append, List.all_nil,
          Bool.and_eq_true]
        refine ⟨by decide, by decide, ?_, by decide⟩
        simpa [noBackslash, noCh] using haltb) _ rest]
  simp [MAT.wrapperOf, dirText, List.append_assoc]

theorem wrap_run1 {segs : List Seg} (h : TameSegs segs) (pre : Str)
    (hpre : bsOnlyI pre = true) :
    MAT.wrapGo pre 0 (renderSegs segs) = renderWrapped segs := by
  induction segs generalizing pre with
  | nil => simp [renderSegs, renderWrapped, wrapGo_nil]
  | cons sg rest ih =>
    have hsg : SegOk sg := h sg (by simp)
    have hrest : TameSegs rest := fun x hx => h x (by simp [hx])
    cases sg with
    | txt t =>
      have ht : noBackslash t = true := hsg
      simp only [renderSegs, renderSeg, renderWrapped, wrapSeg]
      rw [wrapGo_clean ht pre _]
      rw [ih hrest _ (bsOnlyI_append hpre (bsOnlyI_of_noBackslash ht))]
    | dir d =>
      have hd : DirOk d := hsg
      simp only [renderSegs, renderSeg, renderWrapped, wrapSeg]
      rw [wrapGo_match pre (matchIncl_dir _ hd)]
      rw [is_already_wrapped_of_bsOnlyI hpre]
      simp only [Bool.false_eq_true, if_false]
      rw [ih hrest _ (bsOnlyI_append hpre (bsOnlyI_dirText hd))]

theorem wrap_run2 {segs : List Seg} (h : TameSegs segs) (pre : Str) :
    MAT.wrapGo pre 0 (renderWrapped segs) = renderWrapped segs := by
  induction segs generalizing pre with
  | nil => simp [renderWrapped, wrapGo_nil]
  | cons sg rest ih =>
    have hsg : SegOk sg := h sg (by simp)
    have hrest : TameSegs rest := fun x hx => h x (by simp [hx])
    cases sg with
    | txt t =>
      have ht : noBackslash t = true := hsg
      simp only [renderWrapped, wrapSeg]
      rw [wrapGo_clean ht pre _, ih hrest]
    | dir d =>
      have hd : DirOk d := hsg
      obtain ⟨-, -, -, -, -, hab, -, -⟩ := hd
      simp only [renderWrapped, wrapSeg, MAT.mkWrapper]
      rw [wrapGo_block pre _ hsg hab]
      rw [ih hrest]

theorem wrap_images_render {segs : List Seg} (h : TameSegs segs) :
    MAT.wrap_images (renderSegs segs) = renderWrapped segs := by
  unfold MAT.wrap_images
  exact wrap_run1 h [] rfl

/- ── extract_alt_map machinery ──────────────────────────────────────── -/

theorem extractGo_nil (acc : List (Str × Str)) (skip : Nat) :
    MAT.extractGo acc skip [] = acc := rfl

theorem extractGo_stepS (acc : List (Str × Str)) (n : Nat) (c : Char) (cs : Str) :
    MAT.extractGo acc (n + 1) (c :: cs) = MAT.extractGo acc n cs := rfl

theorem extractGo_cons_nomatch (acc : List (Str × Str)) {c : Char} {cs : Str}
    (h : MAT.matchTooltip (c :: cs) = none) :
    MAT.extractGo acc 0 (c :: cs) = MAT.extractGo acc 0 cs := by
  show (match MAT.matchTooltip (c :: cs) with
        | some (m, g1, g2, _) =>
          MAT.extractGo (MAT.insertAssoc acc (pathName g1) (pyStrip g2)) (m.length - 1) cs
        | none => MAT.extractGo acc 0 cs) = _
  rw [h]

theorem extractGo_cons_match (acc : List (Str × Str)) {c : Char} {cs m g1 g2 r : Str}
    (h : MAT.matchTooltip (c :: cs) = some (m, g1, g2, r)) :
    MAT.extractGo acc 0 (c :: cs)
      = MAT.extractGo (MAT.insertAssoc acc (pathName g1) (pyStrip g2)) (m.length - 1) cs := by
  show (match MAT.matchTooltip (c :: cs) with
        | some (m, g1, g2, _) =>
          MAT.extractGo (MAT.insertAssoc acc (pathName g1) (pyStrip g2)) (m.length - 1) cs
        | none => MAT.extractGo acc 0 cs) = _
  rw [h]

theorem extractGo_skip (t : Str) (acc : List (Str × Str)) (rest : Str) :
    MAT.extractGo acc t.length (t ++ rest) = MAT.extractGo acc 0 rest := by
  induction t with
  | nil => simp
  | cons c t' ih => rw [List.cons_append, List.length_cons, extractGo_stepS, ih]

theorem matchTooltip_not_bs {c : Char} (cs : Str) (h : c ≠ '\\') :
    MAT.matchTooltip (c :: cs) = none := by
  have ht : MAT.ttInclTok = '\\' :: "pdftooltip\x7b\\includegraphics".toList := by decide
  unfold MAT.matchTooltip
  rw [ht]
  simp [List.isPrefixOf, Ne.symm h]

theorem extractGo_clean {t : Str} (h : noBackslash t = true) (acc : List (Str × Str))
    (rest : Str) : MAT.extractGo acc 0 (t ++ rest) = MAT.extractGo acc 0 rest := by
  induction t with
  | nil => simp
  | cons c t' ih =>
    simp only [noBackslash, noCh, List.all_cons, Bool.and_eq_true, Bool.not_eq_true',
      beq_eq_false_iff_ne, ne_eq] at h
    rw [List.cons_append, extractGo_cons_nomatch acc (matchTooltip_not_bs _ h.1)]
    exact ih (by simp [noBackslash, noCh, h.2])

theorem matchTooltip_block {d : Dir} {alt : Str} (rest : Str) (hd : DirOk d)
    (hane : alt ≠ []) (hac : noCh '\x7d' alt = true) :
    MAT.matchTooltip (MAT.wrapperOf (optsText d) d.fname alt ++ rest)
      = some (MAT.wrapperOf (optsText d) d.fname alt, d.fname, alt, rest) := by
  obtain ⟨ho, hfne, hf2, -⟩ := hd
  have hshape : MAT.wrapperOf (optsText d) d.fname alt ++ rest
      = MAT.ttInclTok ++
          (optsText d ++ ('\x7b' :: (d.fname ++ ['\x7d']) ++
            ('\x7d' :: ('\x7b' :: (alt ++ ('\x7d' :: rest)))))) := by
    simp [MAT.wrapperOf, MAT.ttInclTok, tooltipOpen, inclTok, List.append_assoc]
  unfold MAT.matchTooltip
  rw [hshape, isPrefixOf_append_self, if_pos rfl, List.drop_left]
  have harg : optsAndArg (optsText d ++ ('\x7b' :: (d.fname ++ ['\x7d']) ++
        ('\x7d' :: ('\x7b' :: (alt ++ ('\x7d' :: rest))))))
      = some (optsText d, d.fname, '\x7d' :: ('\x7b' :: (alt ++ ('\x7d' :: rest)))) := by
    cases hoi : d.optsInner with
    | none =>
      have hot : optsText d = [] := by simp [optsText, hoi]
      rw [hot]
      rw [show ([] : Str) ++ ('\x7b' :: (d.fname ++ ['\x7d']) ++
            ('\x7d' :: ('\x7b' :: (alt ++ ('\x7d' :: rest)))))
          = '\x7b' :: (d.fname ++ '\x7d' :: ('\x7d' :: ('\x7b' :: (alt ++ ('\x7d' :: rest)))))
          from by simp]
      rw [optsAndArg_none_first _ hfne hf2]
    | some i =>
      rw [hoi] at ho
      rw [show OptsInnerOk (some i) = (noCh ']' i = true ∧ noBackslash i = true) from rfl] at ho
      have hot : optsText d = '[' :: (i ++ [']']) := by simp [optsText, hoi]
      rw [hot]
      rw [show ('[' :: (i ++ [']'])) ++ ('\x7b' :: (d.fname ++ ['\x7d']) ++
            ('\x7d' :: ('\x7b' :: (alt ++ ('\x7d' :: rest)))))
          = '[' :: (i ++ ']' :: ('\x7b' :: (d.fname ++ '\x7d' ::
              ('\x7d' :: ('\x7b' :: (alt ++ ('\x7d' :: rest))))))) from by simp]
      rw [optsAndArg_opts_first _ ho.1 hfne hf2]
  rw [harg]
  simp only [braceArg_first rest hane hac]
  simp [MAT.wrapperOf, MAT.ttInclTok, tooltipOpen, inclTok, List.append_assoc]

theorem extractGo_consume (acc : List (Str × Str)) {m g1 g2 r : Str} (hne : m ≠ [])
    (h : MAT.matchTooltip (m ++ r) = some (m, g1, g2, r)) :
    MAT.extractGo acc 0 (m ++ r)
      = MAT.extractGo (MAT.insertAssoc acc (pathName g1) (pyStrip g2)) 0 r := by
  cases m with
  | nil => exact absurd rfl hne
  | cons c mt =>
    rw [List.cons_append] at h ⊢
    rw [extractGo_cons_match acc h]
    simp only [List.length_cons, Nat.add_sub_cancel]
    exact extractGo_skip mt _ r

theorem wrapperOf_ne_nil (o f alt : Str) : MAT.wrapperOf o f alt ≠ [] := by
  have ht : tooltipOpen = '\\' :: "pdftooltip\x7b".toList := by decide
  simp [MAT.wrapperOf, ht]

theorem extract_run {segs : List Seg} (h : TameSegs segs) (acc : List (Str × Str)) :
    MAT.extractGo acc 0 (renderWrapped segs) = mapOfSegs acc segs := by
  induction segs generalizing acc with
  | nil => simp [renderWrapped, mapOfSegs, extractGo_nil]
  | cons sg rest ih =>
    have hsg : SegOk sg := h sg (by simp)
    have hrest : TameSegs rest := fun x hx => h x (by simp [hx])
    cases sg with
    | txt t =>
      have ht : noBackslash t = true := hsg
      simp only [renderWrapped, wrapSeg, mapOfSegs]
      rw [extractGo_clean ht acc _, ih hrest]
    | dir d =>
      have hd : DirOk d := hsg
      simp only [renderWrapped, wrapSeg, mapOfSegs, MAT.mkWrapper]
      rw [extractGo_consume acc (wrapperOf_ne_nil _ _ _)
            (matchTooltip_block _ hd hd.2.2.2.2.1 hd.2.2.2.2.2.2.1)]
      rw [ih hrest]

theorem extract_alt_map_wrapped {segs : List Seg} (h : TameSegs segs) :
    MAT.extract_alt_map (renderWrapped segs) = mapOfSegs [] segs := by
  unfold MAT.extract_alt_map
  exact extract_run h []

/- ── directive-sequence machinery ───────────────────────────────────── -/

theorem inclGo_nil (skip : Nat) : MAT.inclGo skip [] = [] := rfl

theorem inclGo_stepS (n : Nat) (c : Char) (cs : Str) :
    MAT.inclGo (n + 1) (c :: cs) = MAT.inclGo n cs := rfl

theorem inclGo_cons_nomatch {c : Char} {cs : Str} (h : matchIncl (c :: cs) = none) :
    MAT.inclGo 0 (c :: cs) = MAT.inclGo 0 cs := by
  show (match matchIncl (c :: cs) with
        | some (m, opts, fname, _) => (opts, fname) :: MAT.inclGo (m.length - 1) cs
        | none => MAT.inclGo 0 cs) = _
  rw [h]

theorem inclGo_cons_match {c : Char} {cs m o f r : Str}
    (h : matchIncl (c :: cs) = some (m, o, f, r)) :
    MAT.inclGo 0 (c :: cs) = (o, f) :: MAT.inclGo (m.length - 1) cs := by
  show (match matchIncl (c :: cs) with
        | some (m, opts, fname, _) => (opts, fname) :: MAT.inclGo (m.length - 1) cs
        | none => MAT.inclGo 0 cs) = _
  rw [h]

theorem inclGo_skip (t : Str) (rest : Str) :
    MAT.inclGo t.length (t ++ rest) = MAT.inclGo 0 rest := by
  induction t with
  | nil => simp
  | cons c t' ih => rw [List.cons_append, List.length_cons, inclGo_stepS, ih]

theorem inclGo_clean {t : Str} (h : noBackslash t = true) (rest : Str) :
    MAT.inclGo 0 (t ++ rest) = MAT.inclGo 0 rest := by
  induction t with
  | nil => simp
  | cons c t' ih =>
    simp only [noBackslash, noCh, List.all_cons, Bool.and_eq_true, Bool.not_eq_true',
      beq_eq_false_iff_ne, ne_eq] at h
    rw [List.cons_append, inclGo_cons_nomatch (matchIncl_not_bs _ h.1)]
    exact ih (by simp [noBackslash, noCh, h.2])

theorem inclGo_consume {m o f r : Str} (hne : m ≠ [])
    (h : matchIncl (m ++ r) = some (m, o, f, r)) :
    MAT.inclGo 0 (m ++ r) = (o, f) :: MAT.inclGo 0 r := by
  cases m with
  | nil => exact absurd rfl hne
  | cons c mt =>
    rw [List.cons_append] at h ⊢
    rw [inclGo_cons_match h]
    simp only [List.length_cons, Nat.add_sub_cancel]
    rw [inclGo_skip mt r]

theorem dirText_ne_nil (d : Dir) : dirText d ≠ [] := by
  have ht : inclTok = '\\' :: "includegraphics".toList := by decide
  simp [dirText, ht]

theorem inclGo_tooltipOpen (rest : Str) :
    MAT.inclGo 0 (tooltipOpen ++ rest) = MAT.inclGo 0 rest := by
  have ht : tooltipOpen = '\\' :: 'p' :: "dftooltip\x7b".toList := by decide
  rw [ht, List.cons_append]
  rw [inclGo_cons_nomatch (by rw [List.cons_append]; exact matchIncl_bs_not_i _ (by decide))]
  rw [List.cons_append]
  rw [show 'p' :: ("dftooltip\x7b".toList ++ rest) = ('p' :: "dftooltip\x7b".toList) ++ rest from
        by simp]
  exact inclGo_clean (by decide) rest

theorem incl_run1 {segs : List Seg} (h : TameSegs segs) :
    MAT.inclGo 0 (renderSegs segs) = dirSeq segs := by
  induction segs with
  | nil => simp [renderSegs, dirSeq, inclGo_nil]
  | cons sg rest ih =>
    have hsg : SegOk sg := h sg (by simp)
    have hrest : TameSegs rest := fun x hx => h x (by simp [hx])
    cases sg with
    | txt t =>
      simp only [renderSegs, renderSeg, dirSeq]
      rw [inclGo_clean hsg _, ih hrest]
    | dir d =>
      have hd : DirOk d := hsg
      simp only [renderSegs, renderSeg, dirSeq]
      rw [inclGo_consume (dirText_ne_nil d) (matchIncl_dir _ hd), ih hrest]

theorem incl_run2 {segs : List Seg} (h : TameSegs segs) :
    MAT.inclGo 0 (renderWrapped segs) = dirSeq segs := by
  induction segs with
  | nil => simp [renderWrapped, dirSeq, inclGo_nil]
  | cons sg rest ih =>
    have hsg : SegOk sg := h sg (by simp)
    have hrest : TameSegs rest := fun x hx => h x (by simp [hx])
    cases sg with
    | txt t =>
      simp only [renderWrapped, wrapSeg, dirSeq]
      rw [inclGo_clean hsg _, ih hrest]
    | dir d =>
      have hd : DirOk d := hsg
      have hshape : MAT.mkWrapper (optsText d) d.fname ++ renderWrapped rest
          = tooltipOpen ++ (dirText d ++
              (('\x7d' :: '\x7b' :: (MAT.mkAlt d.fname ++ ['\x7d'])) ++ renderWrapped rest)) := by
        simp [MAT.mkWrapper, MAT.wrapperOf, dirText, List.append_assoc]
      simp only [renderWrapped, wrapSeg, dirSeq]
      rw [hshape, inclGo_tooltipOpen]
      rw [show dirText d ++ (('\x7d' :: '\x7b' :: (MAT.mkAlt d.fname ++ ['\x7d'])) ++
            renderWrapped rest)
          = dirText d ++ (('\x7d' :: '\x7b' :: (MAT.mkAlt d.fname ++ ['\x7d'])) ++
            renderWrapped rest) from rfl]
      rw [inclGo_consume (dirText_ne_nil d)
            (matchIncl_dir (('\x7d' :: '\x7b' :: (MAT.mkAlt d.fname ++ ['\x7d'])) ++
              renderWrapped rest) hd)]
      rw [inclGo_clean (t := '\x7d' :: '\x7b' :: (MAT.mkAlt d.fname ++ ['\x7d'])) (by
            simp only [noBackslash, noCh, List.all_cons, List.all_append, List.all_nil,
              Bool.and_eq_true]
            refine ⟨by decide, by decide, ?_, by decide⟩
            simpa [noBackslash, noCh] using hd.2.2.2.2.2.1) (renderWrapped rest)]
      rw [ih hrest]

/- ── substring monotonicity and the shn patcher ─────────────────────── -/

theorem isPrefixOf_mono_append {p s : Str} (y : Str) (h : p.isPrefixOf s = true) :
    p.isPrefixOf (s ++ y) = true := by
  induction p generalizing s with
  | nil => simp [List.isPrefixOf]
  | cons c cs ih =>
    cases s with
    | nil => simp [List.isPrefixOf] at h
    | cons x xs =>
      simp only [List.isPrefixOf, Bool.and_eq_true] at h ⊢
      exact ⟨h.1, ih h.2⟩

theorem containsSub_mono_right (p x s : Str) (h : containsSub p s = true) :
    containsSub p (x ++ s) = true := by
  induction x with
  | nil => simpa using h
  | cons c x' ih => simp [containsSub, ih]

theorem containsSub_mono_left (p : Str) {s : Str} (y : Str) (h : containsSub p s = true) :
    containsSub p (s ++ y) = true := by
  induction s with
  | nil =>
    simp only [containsSub, List.isEmpty_iff] at h
    subst h
    simp [containsSub_nil_pat]
  | cons c cs ih =>
    simp only [containsSub, Bool.or_eq_true] at h
    rcases h with h | h
    · have h2 : p.isPrefixOf (c :: cs ++ y) = true := by
        have := isPrefixOf_mono_append y h
        simpa using this
      rw [List.cons_append]
      simp only [containsSub, Bool.or_eq_true]
      left
      simpa using h2
    · rw [List.cons_append]
      simp only [containsSub, Bool.or_eq_true]
      right
      exact ih h

theorem mainMatch_sound {px s g1 g3 r : Str} (h : MA.mainMatch px s = some (g1, g3, r)) :
    s = MA.graphicxLine px ++ (MA.hyperrefLine px ++ (g3 ++ r)) := by
  simp only [MA.mainMatch] at h
  split at h
  · next hA =>
    split at h
    · next hB =>
      have hsA := eq_append_of_isPrefixOf hA
      have hsB := eq_append_of_isPrefixOf hB
      split at h
      · next hC =>
        have hsC := eq_append_of_isPrefixOf hC
        simp only [Option.some.injEq, Prod.mk.injEq] at h
        obtain ⟨h1, h2, h3⟩ := h
        subst h3
        rw [hsA, hsB, hsC]
        simp [h2]
      · simp only [Option.some.injEq, Prod.mk.injEq] at h
        obtain ⟨h1, h2, h3⟩ := h
        subst h3
        rw [hsA, hsB, ← h2]
        simp
    · simp at h
  · simp at h

theorem hyperrefLine_eq (px : Str) : MA.hyperrefLine px = MA.bareHyperref px ++ ['\n'] := by
  have hl : "\\usepackage\x7bhyperref\x7d\n".toList
      = "\\usepackage\x7bhyperref\x7d".toList ++ ['\n'] := by decide
  simp [MA.hyperrefLine, MA.bareHyperref, hl]

theorem contains_of_mainFind {px text : Str} (h : MA.mainFind px text ≠ none) :
    containsSub (MA.bareHyperref px) text = true := by
  induction text with
  | nil => simp [MA.mainFind] at h
  | cons c cs ih =>
    unfold MA.mainFind at h
    split at h
    · next g1 g3 rest hm =>
      have hs := mainMatch_sound hm
      rw [hs, hyperrefLine_eq]
      rw [show MA.graphicxLine px ++ ((MA.bareHyperref px ++ ['\n']) ++ (g3 ++ rest))
            = MA.graphicxLine px ++ (MA.bareHyperref px ++ (['\n'] ++ (g3 ++ rest))) from by
          simp [List.append_assoc]]
      exact containsSub_parts _ _ _
    · split at h
      · next b g1 g3 r hf =>
        have := ih (by simp [hf])
        simp [containsSub, this]
      · simp at h

theorem contains_of_bareFind {px text : Str} (h : MA.bareFind px text ≠ none) :
    containsSub (MA.bareHyperref px) text = true := by
  induction text with
  | nil => simp [MA.bareFind] at h
  | cons c cs ih =>
    unfold MA.bareFind at h
    split at h
    · next hp =>
      simp [containsSub, hp]
    · next hp =>
      split at h
      · next b a hf =>
        have := ih (by simp [hf])
        simp [containsSub, this]
      · simp at h

theorem mainFind_eq_none {px text : Str} (h : containsSub (MA.bareHyperref px) text = false) :
    MA.mainFind px text = none := by
  cases hm : MA.mainFind px text with
  | none => rfl
  | some x => rw [contains_of_mainFind (by simp [hm])] at h; cases h

theorem bareFind_eq_none {px text : Str} (h : containsSub (MA.bareHyperref px) text = false) :
    MA.bareFind px text = none := by
  cases hm : MA.bareFind px text with
  | none => rfl
  | some x => rw [contains_of_bareFind (by simp [hm])] at h; cases h

theorem patch_preamble_no_anchor {text px : Str} (title : Str)
    (hh : containsSub (MA.bareHyperref px) text = false)
    (hdc : findDocclass text = none) :
    MA.patch_preamble text px title = text := by
  unfold MA.patch_preamble
  rw [mainFind_eq_none hh, bareFind_eq_none hh]
  simp [hdc]

theorem patch_preamble_docclass {text px : Str} (title : Str) {b m a : Str}
    (hh : containsSub (MA.bareHyperref px) text = false)
    (hdc : findDocclass text = some (b, m, a)) :
    MA.patch_preamble text px title
      = b ++ (m ++ '\n' :: (MA.preambleBlock px ++ '\n' :: MA.hyperrefBlock px title)) ++ a := by
  unfold MA.patch_preamble
  rw [mainFind_eq_none hh, bareFind_eq_none hh]
  simp [hdc]

theorem contains_preamble_fontenc (px : Str) :
    containsSub "fontenc".toList (MA.preambleBlock px) = true := by
  unfold MA.preambleBlock
  simp only [List.append_assoc]
  repeat
    first
      | exact (by decide)
      | exact containsSub_mono_left _ _ (by decide)
      | refine containsSub_mono_right _ _ _ ?_

theorem contains_preamble_lmodern (px : Str) :
    containsSub "lmodern".toList (MA.preambleBlock px) = true := by
  unfold MA.preambleBlock
  simp only [List.append_assoc]
  repeat
    first
      | exact (by decide)
      | exact containsSub_mono_left _ _ (by decide)
      | refine containsSub_mono_right _ _ _ ?_

theorem contains_hyperref_pdftitle (px title : Str) :
    containsSub "pdftitle".toList (MA.hyperrefBlock px title) = true := by
  unfold MA.hyperrefBlock
  simp only [List.append_assoc]
  repeat
    first
      | exact (by decide)
      | exact containsSub_mono_left _ _ (by decide)
      | refine containsSub_mono_right _ _ _ ?_

theorem contains_hyperref_pdfcomment (px title : Str) :
    containsSub "pdfcomment".toList (MA.hyperrefBlock px title) = true := by
  unfold MA.hyperrefBlock
  simp only [List.append_assoc]
  repeat
    first
      | exact (by decide)
      | exact containsSub_mono_left _ _ (by decide)
      | refine containsSub_mono_right _ _ _ ?_

theorem bad_u (r : Str) : badTemplateEscape ('\\' :: 'u' :: r) = some 'u' := by
  simp [badTemplateEscape]

theorem bad_accPkgs (r : Str) : badTemplateEscape (MAT.accPkgs ++ r) = some 'u' := by
  have h : MAT.accPkgs = '\\' :: 'u' :: MAT.accPkgs.drop 2 := by decide
  rw [h]
  simp only [List.cons_append]
  exact bad_u _

/- ── helper for the wrapped-detection repetition property ───────────── -/

theorem repBlock_fixed : ∀ (n : Nat) (pre : Str), MAT.wrapGo pre 0 (repBlock n) = repBlock n := by
  intro n
  induction n with
  | zero => intro pre; rfl
  | succ k ih =>
    intro pre
    show MAT.wrapGo pre 0 (MAT.wrapperOf (optsText d0img) d0img.fname handAlt ++ repBlock k)
        = repBlock (k + 1)
    rw [wrapGo_block pre (repBlock k) (by decide) (by decide)]
    rw [ih]
    rfl

theorem already_patched_after_insert (b m a px title : Str) :
    MA.already_patched
      (b ++ (m ++ '\n' :: (MA.preambleBlock px ++ '\n' :: MA.hyperrefBlock px title)) ++ a)
      = true := by
  have hshape : b ++ (m ++ '\n' :: (MA.preambleBlock px ++ '\n' :: MA.hyperrefBlock px title)) ++ a
      = b ++ (m ++ (['\n'] ++ (MA.preambleBlock px ++
          (['\n'] ++ (MA.hyperrefBlock px title ++ a))))) := by simp
  rw [hshape]
  unfold MA.already_patched
  have h1 : containsSub "fontenc".toList (b ++ (m ++ (['\n'] ++ (MA.preambleBlock px ++
      (['\n'] ++ (MA.hyperrefBlock px title ++ a)))))) = true := by
    refine containsSub_mono_right _ b _ ?_
    refine containsSub_mono_right _ m _ ?_
    refine containsSub_mono_right _ _ _ ?_
    exact containsSub_mono_left _ _ (contains_preamble_fontenc px)
  have h2 : containsSub "lmodern".toList (b ++ (m ++ (['\n'] ++ (MA.preambleBlock px ++
      (['\n'] ++ (MA.hyperrefBlock px title ++ a)))))) = true := by
    refine containsSub_mono_right _ b _ ?_
    refine containsSub_mono_right _ m _ ?_
    refine containsSub_mono_right _ _ _ ?_
    exact containsSub_mono_left _ _ (contains_preamble_lmodern px)
  have h3 : containsSub "pdftitle".toList (b ++ (m ++ (['\n'] ++ (MA.preambleBlock px ++
      (['\n'] ++ (MA.hyperrefBlock px title ++ a)))))) = true := by
    refine containsSub_mono_right _ b _ ?_
    refine containsSub_mono_right _ m _ ?_
    refine containsSub_mono_right _ _ _ ?_
    refine containsSub_mono_right _ _ _ ?_
    refine containsSub_mono_right _ _ _ ?_
    exact containsSub_mono_left _ _ (contains_hyperref_pdftitle px title)
  have h4 : containsSub "pdfcomment".toList (b ++ (m ++ (['\n'] ++ (MA.preambleBlock px ++
      (['\n'] ++ (MA.hyperrefBlock px title ++ a)))))) = true := by
    refine containsSub_mono_right _ b _ ?_
    refine containsSub_mono_right _ m _ ?_
    refine containsSub_mono_right _ _ _ ?_
    refine containsSub_mono_right _ _ _ ?_
    refine containsSub_mono_right _ _ _ ?_
    exact containsSub_mono_left _ _ (contains_hyperref_pdfcomment px title)
  rw [h1, h2, h3, h4]
  rfl

/- ── Claim theorems ─────────────────────────────────────────────────── -/

/-- C1 (code bug evaluation): the preamble step of make_accessible.py --
the already_patched marker check followed by patch_preamble -- is not
idempotent.  On a source holding a class declaration and a bare hyperref
declaration, the first run replaces the bare declaration with the
hyperref block only, whose markers do not satisfy already_patched, so
the second run inserts the whole accessibility block again after the
class declaration: the accessibility-block region of the second output
differs from the first output. -/
theorem c1_patch_step_twice_differs :
    MA.patchStep title0 (MA.patchStep title0 c1Input) ≠ MA.patchStep title0 c1Input := by
  decide

/-- C2 counterexample: wrap_images of make_accessible_tex.py is not
idempotent on all source texts.  On a source whose first directive
carries a tooltip opener inside its options block, the second directive
is classified as wrapped on the first run (positive depth from the
opener in the options) but as unwrapped on the second run (the nearest
opener is then the copy inside the emitted wrapper's first argument,
whose net depth to the directive is zero), so it is wrapped again. -/
theorem c2_wrap_not_idempotent_cex :
    MAT.wrap_images (MAT.wrap_images cexWrap) ≠ MAT.wrap_images cexWrap := by
  decide

/-- C2 amended: wrap_images is idempotent on every well-formed source --
a source assembled from backslash-free running text and well-formed
image-inclusion directives. -/
theorem c2_wrap_idempotent_on_tame (segs : List Seg) (h : TameSegs segs) :
    MAT.wrap_images (MAT.wrap_images (renderSegs segs))
      = MAT.wrap_images (renderSegs segs) := by
  rw [wrap_images_render h]
  unfold MAT.wrap_images
  exact wrap_run2 h []

/-- Witness for the amended C2 at a concrete well-formed source. -/
theorem c2_witness :
    TameSegs [Seg.txt "hello ".toList, Seg.dir ⟨some "width=3cm".toList, "a.png".toList⟩,
      Seg.txt " tail".toList]
    ∧ MAT.wrap_images (MAT.wrap_images (renderSegs [Seg.txt "hello ".toList,
        Seg.dir ⟨some "width=3cm".toList, "a.png".toList⟩, Seg.txt " tail".toList]))
      = MAT.wrap_images (renderSegs [Seg.txt "hello ".toList,
        Seg.dir ⟨some "width=3cm".toList, "a.png".toList⟩, Seg.txt " tail".toList]) :=
  ⟨by decide, c2_wrap_idempotent_on_tame _ (by decide)⟩

/-- C3 (code bug evaluation): patch_preamble of make_accessible_tex.py
raises re.error on every input text and title: each of its three
branches passes a replacement template containing the escape sequence
backslash-u (from the text of ACCESSIBILITY_PACKAGES), which Python's
template compiler rejects before any match is attempted.  The exception
propagates out of the per-document step and aborts the batch. -/
theorem c3_tex_patch_always_raises (text title : Str) :
    MAT.patch_preamble text title = .error 'u' := by
  simp only [MAT.patch_preamble]
  split
  · rw [List.append_assoc]
    simp [MAT.subUsepkTemplate, bad_accPkgs]
  · split
    · simp [MAT.subUsepkTemplate, bad_accPkgs]
    · simp only [MAT.subDocclassTemplate]
      rw [List.append_assoc]
      rw [show "\\1\\n".toList = ['\\', '1', '\\', 'n'] from by decide]
      simp only [List.cons_append, List.nil_append]
      rw [show ∀ r : Str, badTemplateEscape ('\\' :: '1' :: '\\' :: 'n' :: r)
            = badTemplateEscape r from fun r => by simp [badTemplateEscape]]
      rw [bad_accPkgs]

/-- C4 (code bug evaluation): on a source holding both a graphicx and a
bare hyperref declaration, patch_preamble of make_accessible_tex.py
raises re.error (bad escape) instead of inserting the accessibility
block before the graphicx declaration, so no patched result exists. -/
theorem c4_tex_patch_raises_on_anchor_input :
    MAT.patch_preamble c4Input title0 = .error 'u' := rfl

/-- C5 (code bug evaluation): on a source with a bare hyperref
declaration and no graphicx declaration, patch_preamble of
make_accessible.py replaces the declaration with the hyperref block
alone: the result carries the hyperlink metadata but none of the
font-encoding, font-family, input-encoding or language declarations of
the Accessibility Block. -/
theorem c5_bare_fallback_omits_font_packages :
    containsSub "pdftitle".toList (MA.patch_preamble c1Input [] title0) = true
    ∧ containsSub "pdfcomment".toList (MA.patch_preamble c1Input [] title0) = true
    ∧ containsSub "fontenc".toList (MA.patch_preamble c1Input [] title0) = false
    ∧ containsSub "lmodern".toList (MA.patch_preamble c1Input [] title0) = false
    ∧ containsSub "inputenc".toList (MA.patch_preamble c1Input [] title0) = false
    ∧ containsSub "babel".toList (MA.patch_preamble c1Input [] title0) = false := by
  decide

/-- C6: on a source with no image-support declaration, no hyperlink
declaration, and a class declaration, patch_preamble of
make_accessible.py inserts the preamble block and the hyperref block
(with the supplied title substituted) immediately after the first class
declaration, and already_patched holds on the result. -/
theorem c6_docclass_insertion (text px title b m a : Str)
    (_hg : containsSub (px ++ "\\usepackage\x7bgraphicx\x7d".toList) text = false)
    (hh : containsSub (MA.bareHyperref px) text = false)
    (hdc : findDocclass text = some (b, m, a)) :
    MA.patch_preamble text px title
      = b ++ (m ++ '\n' :: (MA.preambleBlock px ++ '\n' :: MA.hyperrefBlock px title)) ++ a
    ∧ MA.already_patched (MA.patch_preamble text px title) = true := by
  have he := patch_preamble_docclass title hh hdc
  refine ⟨he, ?_⟩
  rw [he]
  exact already_patched_after_insert b m a px title

/-- Witness for C6 at a concrete source with only a class declaration. -/
theorem c6_witness :
    MA.patch_preamble "\\documentclass\x7barticle\x7d\nhello".toList [] title0
      = [] ++ ("\\documentclass\x7barticle\x7d".toList ++ '\n' ::
          (MA.preambleBlock [] ++ '\n' :: MA.hyperrefBlock [] title0)) ++ "\nhello".toList
    ∧ MA.already_patched
        (MA.patch_preamble "\\documentclass\x7barticle\x7d\nhello".toList [] title0) = true :=
  c6_docclass_insertion "\\documentclass\x7barticle\x7d\nhello".toList [] title0
    "".toList "\\documentclass\x7barticle\x7d".toList "\nhello".toList
    (by decide) (by decide) (by decide)

/-- C7: the alt-map round trip.  For a well-formed source holding
exactly the directives for a.png and b.png (amid backslash-free text),
extracting the alt map from the wrapped source yields exactly the two
entries keyed by basename, each the marker-prefixed guess for its
filename. -/
theorem c7_alt_map_round_trip (t0 t1 t2 : Str) (oa ob : Option Str)
    (h : TameSegs [Seg.txt t0, Seg.dir ⟨oa, "a.png".toList⟩, Seg.txt t1,
      Seg.dir ⟨ob, "b.png".toList⟩, Seg.txt t2]) :
    MAT.extract_alt_map (MAT.wrap_images (renderSegs [Seg.txt t0,
        Seg.dir ⟨oa, "a.png".toList⟩, Seg.txt t1, Seg.dir ⟨ob, "b.png".toList⟩, Seg.txt t2]))
      = [("a.png".toList, MAT.altMarker ++ ' ' :: MAT.guess_alt "a.png".toList),
         ("b.png".toList, MAT.altMarker ++ ' ' :: MAT.guess_alt "b.png".toList)] := by
  rw [wrap_images_render h, extract_alt_map_wrapped h]
  simp only [mapOfSegs]
  decide

/-- Witness for C7 at concrete text segments and options. -/
theorem c7_witness :
    TameSegs [Seg.txt "one ".toList, Seg.dir ⟨some "width=3cm".toList, "a.png".toList⟩,
      Seg.txt " two ".toList, Seg.dir ⟨none, "b.png".toList⟩, Seg.txt " three".toList]
    ∧ MAT.extract_alt_map (MAT.wrap_images (renderSegs [Seg.txt "one ".toList,
        Seg.dir ⟨some "width=3cm".toList, "a.png".toList⟩, Seg.txt " two ".toList,
        Seg.dir ⟨none, "b.png".toList⟩, Seg.txt " three".toList]))
      = [("a.png".toList, MAT.altMarker ++ ' ' :: MAT.guess_alt "a.png".toList),
         ("b.png".toList, MAT.altMarker ++ ' ' :: MAT.guess_alt "b.png".toList)] :=
  ⟨by decide, c7_alt_map_round_trip "one ".toList " two ".toList " three".toList
    (some "width=3cm".toList) none (by decide)⟩

/-- C8 counterexample: the directive sequence is not preserved by
wrap_images on all source texts.  On a directive whose filename
argument itself contains an image-inclusion command, the emitted alt
text reproduces that command, and the second scan finds an additional
directive inside the wrapper's alt argument. -/
theorem c8_directive_seq_cex :
    MAT.inclDirectives (MAT.wrap_images cexSeq) ≠ MAT.inclDirectives cexSeq := by
  decide

/-- C8 amended: on every well-formed source the sequence of (options,
filename) groups of the image-inclusion matches is the same before and
after wrap_images -- same count, same order, nothing altered. -/
theorem c8_directives_preserved_on_tame (segs : List Seg) (h : TameSegs segs) :
    MAT.inclDirectives (MAT.wrap_images (renderSegs segs))
      = MAT.inclDirectives (renderSegs segs) := by
  rw [wrap_images_render h]
  unfold MAT.inclDirectives
  rw [incl_run2 h, incl_run1 h]

/-- Witness for the amended C8 at a concrete well-formed source. -/
theorem c8_witness :
    TameSegs [Seg.dir ⟨none, "x.png".toList⟩, Seg.txt " mid ".toList,
      Seg.dir ⟨some "scale=2".toList, "y.pdf".toList⟩]
    ∧ MAT.inclDirectives (MAT.wrap_images (renderSegs [Seg.dir ⟨none, "x.png".toList⟩,
        Seg.txt " mid ".toList, Seg.dir ⟨some "scale=2".toList, "y.pdf".toList⟩]))
      = MAT.inclDirectives (renderSegs [Seg.dir ⟨none, "x.png".toList⟩,
        Seg.txt " mid ".toList, Seg.dir ⟨some "scale=2".toList, "y.pdf".toList⟩]) :=
  ⟨by decide, c8_directives_preserved_on_tame _ (by decide)⟩

/-- C9 counterexample: a directive lying inside the FIRST argument of a
tooltip wrapper is not always left untouched.  When a closed inner
wrapper precedes the directive inside the outer wrapper's first
argument, the nearest preceding opener is the inner one, the net brace
depth from it is zero, and wrap_images wraps the directive again. -/
theorem c9_first_arg_cex : MAT.wrap_images cexNested ≠ cexNested := by
  decide

/-- C9 amended: the scanner's criterion is the nearest preceding
wrapper opener.  Any run of hand-written wrapped directives is left
entirely untouched (each directive's nearest opener is its own wrapper,
at positive depth), and a directive following a closed wrapper (depth
back to zero) is treated as unwrapped and gets wrapped. -/
theorem c9_nearest_wrapper_criterion :
    (∀ n : Nat, MAT.wrap_images (repBlock n) = repBlock n)
    ∧ (∀ d : Dir, DirOk d →
        MAT.wrap_images (unitBlock ++ dirText d)
          = unitBlock ++ MAT.mkWrapper (optsText d) d.fname) := by
  constructor
  · intro n
    unfold MAT.wrap_images
    exact repBlock_fixed n []
  · intro d hd
    unfold MAT.wrap_images
    show MAT.wrapGo [] 0 (MAT.wrapperOf (optsText d0img) d0img.fname handAlt ++ dirText d) = _
    rw [wrapGo_block [] (dirText d) (by decide) (by decide)]
    rw [show dirText d = dirText d ++ [] from by simp]
    rw [wrapGo_match _ (matchIncl_dir [] hd)]
    rw [show MAT.is_already_wrapped ([] ++ MAT.wrapperOf (optsText d0img) d0img.fname handAlt)
          = false from by decide]
    simp [wrapGo_nil, unitBlock]

/-- Witness for the amended C9 at a concrete repetition and directive. -/
theorem c9_witness :
    MAT.wrap_images (repBlock 2) = repBlock 2
    ∧ (DirOk ⟨some "width=1cm".toList, "pic.png".toList⟩
       ∧ MAT.wrap_images (unitBlock ++ dirText ⟨some "width=1cm".toList, "pic.png".toList⟩)
          = unitBlock ++ MAT.mkWrapper (optsText ⟨some "width=1cm".toList, "pic.png".toList⟩)
              "pic.png".toList) :=
  ⟨c9_nearest_wrapper_criterion.1 2,
   by decide,
   c9_nearest_wrapper_criterion.2 ⟨some "width=1cm".toList, "pic.png".toList⟩ (by decide)⟩

/-- C10: on a source with no graphicx declaration, no hyperref
declaration and no class declaration, patch_preamble of
make_accessible.py returns its input exactly unchanged, and
already_patched is still false on the result. -/
theorem c10_no_anchor_identity (text px title : Str)
    (_hg : containsSub (px ++ "\\usepackage\x7bgraphicx\x7d".toList) text = false)
    (hh : containsSub (MA.bareHyperref px) text = false)
    (hdc : findDocclass text = none)
    (hap : MA.already_patched text = false) :
    MA.patch_preamble text px title = text
    ∧ MA.already_patched (MA.patch_preamble text px title) = false := by
  have he := patch_preamble_no_anchor title hh hdc
  exact ⟨he, by rw [he]; exact hap⟩

/-- Witness for C10 at a concrete anchor-free source. -/
theorem c10_witness :
    MA.patch_preamble "hello world".toList [] title0 = "hello world".toList
    ∧ MA.already_patched (MA.patch_preamble "hello world".toList [] title0) = false :=
  c10_no_anchor_identity "hello world".toList [] title0
    (by decide) (by decide) (by decide) (by decide)

end Access







